import Mathlib

/-!
# Verification of the word-search puzzle generator and gesture engine

Shallow embedding of the core of the `word-search` repository:

* seeded RNG (`hashSeed`, `mulberry32`) from `src/useAuth.ts` (the
  `selectWords`/`seededRandom` utility section of that file),
* word selection (`pickWords`) from the same file,
* grid generation (`generatePuzzleGuaranteed`, `gridContainsWord`) from
  `src/App.tsx` (identical in `unnamed/part_003`),
* the pointer gesture engine: the `onDown`/`onMove`/`onUp` handlers of
  `src/App.tsx` (machine "A") and of `unnamed/part_003` (machine "P",
  which resolves cells through the DOM and uses a Chebyshev lift
  tolerance via `liftCloseTo`).

JavaScript numbers are modelled exactly: all the 32-bit integer
operations (`>>>`, `^`, `|`, `Math.imul`, wrap-around `+`/`*`) act
modulo `2^32` on `Nat`; the RNG float `u / 2^32` only ever feeds
`Math.floor(rng() * m)`, which equals `u * m / 2^32` in exact `Nat`
division; screen coordinates are rationals, with the one square-root
comparison in `App.tsx`'s `onUp` modelled by comparing squares.
-/

/-! ## Seeded RNG (`src/useAuth.ts`, `hashSeed` and `mulberry32`) -/

/-- One step of `hashSeed`: `h ^= str.charCodeAt(i)` followed by
`h += (h << 1) + (h << 4) + (h << 7) + (h << 8) + (h << 24)`.
JS `^` coerces `h` to a 32-bit integer (`h % 2^32` as unsigned) and each
shift `h << k` contributes `h * 2^k (mod 2^32)`; the running sum is kept
un-reduced exactly as the JS float accumulates it, and is reduced by the
next iteration's coercion (or by the final `>>> 0`). -/
def hashStep (h c : Nat) : Nat :=
  let x := (h % 4294967296) ^^^ c
  x + (x * 2) % 4294967296 + (x * 16) % 4294967296 + (x * 128) % 4294967296
    + (x * 256) % 4294967296 + (x * 16777216) % 4294967296

/-- `hashSeed` from `src/useAuth.ts`: fold `hashStep` over the character
codes starting from `2166136261`, with the final `>>> 0`. -/
def hashSeed (codes : List Nat) : Nat :=
  (codes.foldl hashStep 2166136261) % 4294967296

/-- `hashSeed` applied to a string's character codes
(`str.charCodeAt(i)` = the code point for the BMP characters used). -/
def hashSeedStr (s : String) : Nat :=
  hashSeed (s.data.map Char.toNat)

/-- Reference 32-bit FNV-1a step, from the spec's words:
`h = (h XOR c) * 16777619 (mod 2^32)`. -/
def fnv1aStep (h c : Nat) : Nat :=
  ((h ^^^ c) * 16777619) % 4294967296

/-- Reference 32-bit FNV-1a, from the spec's words: offset basis
`2166136261`, prime `16777619`, all arithmetic unsigned 32-bit. -/
def fnv1a (codes : List Nat) : Nat :=
  codes.foldl fnv1aStep 2166136261

/-- One call of `mulberry32` from `src/useAuth.ts`, on the unsigned
32-bit view of the state: returns the new state and the raw 32-bit
output `u` (the JS function returns `u / 4294967296`). -/
def m32next (a : Nat) : Nat × Nat :=
  let a' := (a + 0x6d2b79f5) % 4294967296
  let t1 := a' ^^^ (a' >>> 15)
  let t2 := (t1 * (a' ||| 1)) % 4294967296
  let t3 := t2 ^^^ ((t2 + ((t2 ^^^ (t2 >>> 7)) * (t2 ||| 61)) % 4294967296) % 4294967296)
  (a', (t3 ^^^ (t3 >>> 14)) % 4294967296)

/-- The mulberry32 state after `k` calls starting from state `a`. -/
def m32state (a : Nat) : Nat → Nat
  | 0 => a
  | k + 1 => (m32next (m32state a k)).1

/-- The `k`-th raw 32-bit output of the mulberry32 stream seeded with
state `a` (the `k`-th call's return value, scaled by `2^32`). -/
def m32stream (a : Nat) (k : Nat) : Nat :=
  (m32next (m32state a k)).2

/-- `Math.floor(rng() * m)` where `rng()` returned `u / 2^32`: exact,
since `u`, `m` are small enough for the float product to be exact. -/
def randIdx (u m : Nat) : Nat :=
  u * m / 4294967296

lemma hashStep_mod (h c : Nat) (hc : c < 4294967296) :
    (hashStep h c) % 4294967296 = fnv1aStep (h % 4294967296) c := by
  have hx : (h % 4294967296) ^^^ c < 4294967296 := by
    have h1 : h % 4294967296 < 2 ^ 32 := Nat.mod_lt _ (by norm_num)
    have h2 : c < 2 ^ 32 := by exact_mod_cast hc
    calc (h % 4294967296) ^^^ c < 2 ^ 32 := Nat.xor_lt_two_pow h1 h2
      _ = 4294967296 := by norm_num
  simp only [hashStep, fnv1aStep]
  set x := (h % 4294967296) ^^^ c with hxdef
  omega

lemma foldl_hashStep_mod (codes : List Nat) :
    ∀ h : Nat, (∀ c ∈ codes, c < 65536) →
      (codes.foldl hashStep h) % 4294967296 =
        codes.foldl fnv1aStep (h % 4294967296) := by
  induction codes with
  | nil => intro h _; rfl
  | cons c rest ih =>
    intro h hc
    have hcv : c < 4294967296 := by
      have := hc c (List.mem_cons_self c rest)
      omega
    have hrest : ∀ d ∈ rest, d < 65536 := fun d hd => hc d (List.mem_cons_of_mem c hd)
    simp only [List.foldl_cons]
    rw [ih (hashStep h c) hrest, hashStep_mod h c hcv]

/-- **C2.** The repository's `hashSeed` (xor followed by the shifted-add
update) computes exactly the 32-bit FNV-1a hash with offset basis
`2166136261` and prime `16777619`, and in particular
`hashSeed("test") = 2949673445`. -/
theorem hashSeed_is_fnv1a :
    (∀ codes : List Nat, (∀ c ∈ codes, c < 65536) → hashSeed codes = fnv1a codes) ∧
      hashSeedStr "test" = 2949673445 := by
  constructor
  · intro codes hc
    unfold hashSeed fnv1a
    rw [foldl_hashStep_mod codes 2166136261 hc]
  · decide

/-- Witness for C2: the character codes of `"test"` are below `2^16` and
the hash of `"test"` is the canonical FNV-1a value. -/
theorem hashSeed_is_fnv1a_witness :
    (∀ c ∈ [116, 101, 115, 116], c < 65536) ∧
      hashSeed [116, 101, 115, 116] = fnv1a [116, 101, 115, 116] :=
  ⟨by decide, hashSeed_is_fnv1a.1 [116, 101, 115, 116] (by decide)⟩

/-! ## Grid generation (`generatePuzzleGuaranteed` in `src/App.tsx`)

The source creates one RNG closure (`const rng = createSeededRandom(seed)`)
and threads its mutable state through the whole call.  The generator is
embedded once, parameterised by the state type and the `next` function of
the RNG; the source behaviour is the instance at `m32next` started from
the hashed seed, and a second instance consumes the pure stream
`m32stream a` by index, which is used to state the single-stream claim. -/

/-- The eight unit directions, in the order of the `dirs` array of
`generatePuzzleGuaranteed` (and `gridContainsWord`). -/
def dirs : List (Int × Int) :=
  [(0, 1), (0, -1), (1, 0), (-1, 0), (1, 1), (1, -1), (-1, 1), (-1, -1)]

/-- A grid under construction: `none` is the empty string `""` a cell is
initialised with, `some ch` a committed letter. -/
def OGrid : Type := List (List (Option Char))

/-- A finished grid of single letters. -/
def Grid : Type := List (List Char)

instance : DecidableEq Grid := by unfold Grid; infer_instance

/-- The `GRID_SIZE × GRID_SIZE` grid of empty cells each attempt starts
from (`Array.from({length: GRID_SIZE}, () => Array(GRID_SIZE).fill(""))`). -/
def emptyOGrid : OGrid :=
  List.replicate 10 (List.replicate 10 none)

/-- The sentinel returned after 40 failed attempts:
`Array.from({length: GRID_SIZE}, () => Array(GRID_SIZE).fill("X"))`. -/
def sentinelGrid : Grid :=
  List.replicate 10 (List.replicate 10 'X')

/-- Cell read on a grid under construction; only consulted in-bounds. -/
def ogetCell (g : OGrid) (r c : Int) : Option Char :=
  (g.getD r.toNat []).getD c.toNat none

/-- Cell read on a finished grid (`grid[r][c]`); only consulted in-bounds. -/
def getCell (g : Grid) (r c : Int) : Char :=
  (g.getD r.toNat []).getD c.toNat ' '

/-- The per-placement validity check of `generatePuzzleGuaranteed`: every
letter position `i` stays in bounds and the cell is empty or already
holds the word's letter (`rr<0 || rr>=GRID_SIZE || cc<0 || cc>=GRID_SIZE
|| (grid[rr][cc] && grid[rr][cc] !== w[i])` negated). -/
def canPlace (g : OGrid) (w : List Char) (r c : Nat) (d : Int × Int) : Bool :=
  (List.range w.length).all fun i =>
    let rr : Int := (r : Int) + d.1 * i
    let cc : Int := (c : Int) + d.2 * i
    decide (0 ≤ rr) && decide (rr < 10) && decide (0 ≤ cc) && decide (cc < 10) &&
      (match ogetCell g rr cc with
       | none => true
       | some ch => ch == w.getD i ' ')

/-- Write one letter into a grid under construction. -/
def osetCell (g : OGrid) (r c : Nat) (ch : Char) : OGrid :=
  g.set r ((g.getD r []).set c (some ch))

/-- Commit a valid placement: `grid[r + d.r*i][c + d.c*i] = w[i]` for
each `i`, in increasing order of `i`. -/
def placeWordAt (g : OGrid) (w : List Char) (r c : Nat) (d : Int × Int) : OGrid :=
  (List.range w.length).foldl
    (fun g' (i : Nat) =>
      osetCell g' ((r : Int) + d.1 * i).toNat ((c : Int) + d.2 * i).toNat (w.getD i ' '))
    g

/-- The filler alphabet `"ABCDEFGHIJKLMNOPQRSTUVWXYZ"`. -/
def lettersAZ : List Char :=
  "ABCDEFGHIJKLMNOPQRSTUVWXYZ".data

/-- The inner placement loop: up to `t` further tries for word `w`; each
try consumes a direction index, a row and a column from the RNG (three
calls, in that order), commits the first valid placement and stops. -/
def tryPlaceWord {σ : Type} (next : σ → σ × Nat) (w : List Char) :
    Nat → OGrid → σ → Option OGrid × σ
  | 0, _, s => (none, s)
  | t + 1, g, s =>
    let p1 := next s
    let d := dirs.getD (randIdx p1.2 8) (0, 1)
    let p2 := next p1.1
    let r := randIdx p2.2 10
    let p3 := next p2.1
    let c := randIdx p3.2 10
    if canPlace g w r c d then (some (placeWordAt g w r c d), p3.1)
    else tryPlaceWord next w t g p3.1

/-- Place the words in order; a word that exhausts its 600 tries aborts
the attempt (`fail = true; break`), keeping the RNG state reached. -/
def placeWords {σ : Type} (next : σ → σ × Nat) :
    List (List Char) → OGrid → σ → Option OGrid × σ
  | [], g, s => (some g, s)
  | w :: ws, g, s =>
    match tryPlaceWord next w 600 g s with
    | (some g', s') => placeWords next ws g' s'
    | (none, s') => (none, s')

/-- Fill one row: each still-empty cell takes
`letters[Math.floor(rng() * letters.length)]`, consuming one RNG value;
committed cells consume nothing. -/
def fillRow {σ : Type} (next : σ → σ × Nat) :
    List (Option Char) → σ → List Char × σ
  | [], s => ([], s)
  | none :: rest, s =>
    let p := next s
    let ch := lettersAZ.getD (randIdx p.2 26) 'A'
    let q := fillRow next rest p.1
    (ch :: q.1, q.2)
  | some ch :: rest, s =>
    let q := fillRow next rest s
    (ch :: q.1, q.2)

/-- Fill every empty cell, rows in order, columns in order. -/
def fillGrid {σ : Type} (next : σ → σ × Nat) :
    OGrid → σ → Grid × σ
  | [], s => ([], s)
  | row :: rest, s =>
    let q := fillRow next row s
    let q' := fillGrid next rest q.2
    (q.1 :: q'.1, q'.2)

/-- A forward match of `target` at start `(r, c)` in direction `d`:
every position stays in bounds and holds `target[i]`.  This is the body
of `gridContainsWord`'s innermost loop (the `okF` side; the `okR` side
is this applied to the reversed word, since the bounds break clears both
flags together). -/
def matchesAt (g : Grid) (target : List Char) (r c : Nat) (d : Int × Int) : Bool :=
  (List.range target.length).all fun i =>
    let rr : Int := (r : Int) + d.1 * i
    let cc : Int := (c : Int) + d.2 * i
    decide (0 ≤ rr) && decide (rr < 10) && decide (0 ≤ cc) && decide (cc < 10) &&
      (getCell g rr cc == target.getD i ' ')

/-- `gridContainsWord` from `src/App.tsx`: exhaustive search over all
start cells and the 8 directions for a forward or reversed match. -/
def gridContainsWord (g : Grid) (w : List Char) : Bool :=
  (List.range 10).any fun r =>
    (List.range 10).any fun c =>
      dirs.any fun d =>
        matchesAt g w r c d || matchesAt g w.reverse r c d

/-- The outer attempt loop of `generatePuzzleGuaranteed`: up to `fuel`
attempts, each from a fresh empty grid but with the RNG state carried
over from wherever the previous attempt stopped; a fully placed grid is
filled and returned only if every word passes `gridContainsWord`. -/
def attemptLoop {σ : Type} (next : σ → σ × Nat) (words : List (List Char)) :
    Nat → σ → Grid
  | 0, _ => sentinelGrid
  | a + 1, s =>
    match placeWords next words emptyOGrid s with
    | (none, s') => attemptLoop next words a s'
    | (some g, s') =>
      if words.all fun w => gridContainsWord (fillGrid next g s').1 w then
        (fillGrid next g s').1
      else attemptLoop next words a (fillGrid next g s').2

/-- The generator body, generic in the RNG: 40 attempts. -/
def generateGridCore {σ : Type} (next : σ → σ × Nat)
    (words : List (List Char)) (s : σ) : Grid :=
  attemptLoop next words 40 s

/-- Modelled from the spec: `createSeededRandom` lives in
`src/utils/seededRandom.ts`, which is not among the repository sources;
per the spec's SeededRandom contract (`hash(seed)` followed by
`stream(state)`) it returns the mulberry32 stream seeded with the FNV
hash of the seed string, so its initial state is `hashSeedStr seed`. -/
def createSeededRandomState (seed : String) : Nat :=
  hashSeedStr seed

/-- `generatePuzzleGuaranteed(words, seed)` from `src/App.tsx`: the
generator run with the stateful mulberry32 RNG created once from the
seed. -/
def generatePuzzleGuaranteed (words : List (List Char)) (seed : String) : Grid :=
  generateGridCore m32next words (createSeededRandomState seed)

/-- The RNG interface of the pure stream `stream`: the state is the
index `k` of the next value to consume, and the `k`-th call returns
`stream k`. -/
def idxNext (stream : Nat → Nat) (k : Nat) : Nat × Nat :=
  (k + 1, stream k)

/-- The generator consuming the fixed stream `stream` by index, the
index starting at `0` and threading through all attempts. -/
def generateGridIndexed (stream : Nat → Nat) (words : List (List Char)) : Grid :=
  generateGridCore (idxNext stream) words 0


/-! ### The stateful run equals the run over the pure stream

`f` maps states of the RNG `n₂` to states of `n₁` preserving one call;
instantiated with `f := m32state a`, this turns the mutable mulberry32
closure into the pure stream `m32stream a` consumed by index. -/

lemma m32_simHom (a : Nat) :
    ∀ k, m32next (m32state a k) =
      (m32state a (idxNext (m32stream a) k).1, (idxNext (m32stream a) k).2) :=
  fun _ => rfl

lemma tryPlaceWord_sim {σ₁ σ₂ : Type} (n₁ : σ₁ → σ₁ × Nat) (n₂ : σ₂ → σ₂ × Nat)
    (f : σ₂ → σ₁) (h : ∀ s, n₁ (f s) = (f (n₂ s).1, (n₂ s).2)) (w : List Char) :
    ∀ (t : Nat) (g : OGrid) (s : σ₂),
      tryPlaceWord n₁ w t g (f s) =
        ((tryPlaceWord n₂ w t g s).1, f (tryPlaceWord n₂ w t g s).2) := by
  intro t
  induction t with
  | zero => intro g s; rfl
  | succ t ih =>
    intro g s
    simp only [tryPlaceWord, h]
    split_ifs with hb
    · rfl
    · exact ih g _

lemma placeWords_sim {σ₁ σ₂ : Type} (n₁ : σ₁ → σ₁ × Nat) (n₂ : σ₂ → σ₂ × Nat)
    (f : σ₂ → σ₁) (h : ∀ s, n₁ (f s) = (f (n₂ s).1, (n₂ s).2)) :
    ∀ (ws : List (List Char)) (g : OGrid) (s : σ₂),
      placeWords n₁ ws g (f s) =
        ((placeWords n₂ ws g s).1, f (placeWords n₂ ws g s).2) := by
  intro ws
  induction ws with
  | nil => intro g s; rfl
  | cons w rest ih =>
    intro g s
    have htp := tryPlaceWord_sim n₁ n₂ f h w 600 g s
    simp only [placeWords, htp]
    rcases hq : tryPlaceWord n₂ w 600 g s with ⟨og, s2⟩
    cases og with
    | none => rfl
    | some g2 => exact ih g2 s2

lemma fillRow_sim {σ₁ σ₂ : Type} (n₁ : σ₁ → σ₁ × Nat) (n₂ : σ₂ → σ₂ × Nat)
    (f : σ₂ → σ₁) (h : ∀ s, n₁ (f s) = (f (n₂ s).1, (n₂ s).2)) :
    ∀ (row : List (Option Char)) (s : σ₂),
      fillRow n₁ row (f s) = ((fillRow n₂ row s).1, f (fillRow n₂ row s).2) := by
  intro row
  induction row with
  | nil => intro s; rfl
  | cons o rest ih =>
    intro s
    cases o with
    | none => simp only [fillRow, h, ih]
    | some ch => simp only [fillRow, ih]

lemma fillGrid_sim {σ₁ σ₂ : Type} (n₁ : σ₁ → σ₁ × Nat) (n₂ : σ₂ → σ₂ × Nat)
    (f : σ₂ → σ₁) (h : ∀ s, n₁ (f s) = (f (n₂ s).1, (n₂ s).2)) :
    ∀ (g : OGrid) (s : σ₂),
      fillGrid n₁ g (f s) = ((fillGrid n₂ g s).1, f (fillGrid n₂ g s).2) := by
  intro g
  induction g with
  | nil => intro s; rfl
  | cons row rest ih =>
    intro s
    simp only [fillGrid, fillRow_sim n₁ n₂ f h row s, ih]

lemma attemptLoop_sim {σ₁ σ₂ : Type} (n₁ : σ₁ → σ₁ × Nat) (n₂ : σ₂ → σ₂ × Nat)
    (f : σ₂ → σ₁) (h : ∀ s, n₁ (f s) = (f (n₂ s).1, (n₂ s).2))
    (words : List (List Char)) :
    ∀ (fuel : Nat) (s : σ₂),
      attemptLoop n₁ words fuel (f s) = attemptLoop n₂ words fuel s := by
  intro fuel
  induction fuel with
  | zero => intro s; rfl
  | succ fuel ih =>
    intro s
    have hpw := placeWords_sim n₁ n₂ f h words emptyOGrid s
    simp only [attemptLoop, hpw]
    rcases hq : placeWords n₂ words emptyOGrid s with ⟨og, s2⟩
    cases og with
    | none => exact ih s2
    | some g =>
      simp only [fillGrid_sim n₁ n₂ f h g s2]
      split_ifs with hall
      · rfl
      · exact ih _

/-- **C5.** `generatePuzzleGuaranteed` derives exactly one RNG stream
from the seed for the whole call: its stateful mulberry32 run (state
threaded through every placement try, fill and failed attempt, never
reseeded) equals the run that consumes the pure stream
`m32stream (hashSeed seed)` — seeded once up front — by index, the index
starting at 0 and continuing across attempts, so the `k`-th random value
consumed anywhere in the call is the `k`-th value of that single
stream. -/
theorem generatePuzzle_single_stream (words : List (List Char)) (seed : String) :
    generatePuzzleGuaranteed words seed =
      generateGridIndexed (m32stream (hashSeedStr seed)) words := by
  unfold generatePuzzleGuaranteed generateGridIndexed generateGridCore createSeededRandomState
  exact attemptLoop_sim m32next (idxNext (m32stream (hashSeedStr seed)))
    (m32state (hashSeedStr seed)) (m32_simHom (hashSeedStr seed)) words 40 0

/-! ### Findability of every word in a non-sentinel grid (C1) -/

lemma attemptLoop_ne_sentinel {σ : Type} (next : σ → σ × Nat)
    (words : List (List Char)) :
    ∀ (fuel : Nat) (s : σ),
      attemptLoop next words fuel s ≠ sentinelGrid →
      (words.all fun w => gridContainsWord (attemptLoop next words fuel s) w) = true := by
  intro fuel
  induction fuel with
  | zero => intro s hne; exact absurd rfl hne
  | succ fuel ih =>
    intro s hne
    rw [attemptLoop] at hne ⊢
    rcases hq : placeWords next words emptyOGrid s with ⟨og, s2⟩
    rw [hq] at hne
    cases og with
    | none => exact ih s2 hne
    | some g =>
      dsimp only at hne ⊢
      by_cases hall : (words.all fun w => gridContainsWord (fillGrid next g s2).1 w) = true
      · rw [if_pos hall] at hne ⊢
        exact hall
      · rw [if_neg hall] at hne ⊢
        exact ih _ hne

lemma gridContainsWord_exists (g : Grid) (w : List Char)
    (h : gridContainsWord g w = true) :
    ∃ r c : Nat, r < 10 ∧ c < 10 ∧ ∃ d ∈ dirs,
      (matchesAt g w r c d = true ∨ matchesAt g w.reverse r c d = true) := by
  unfold gridContainsWord at h
  simp only [List.any_eq_true, List.mem_range, Bool.or_eq_true] at h
  obtain ⟨r, hr, c, hc, d, hd, hm⟩ := h
  exact ⟨r, c, hr, hc, d, hd, hm⟩

/-- **C1.** Findability invariant: whenever `generatePuzzleGuaranteed`
returns a non-sentinel grid, every word of the input list can be read
from some start cell along one of the 8 unit directions, staying in
bounds for all `w.length` letters, forward or reversed. -/
theorem generatePuzzle_findability (words : List (List Char)) (seed : String)
    (hns : generatePuzzleGuaranteed words seed ≠ sentinelGrid) :
    ∀ w ∈ words, ∃ r c : Nat, r < 10 ∧ c < 10 ∧ ∃ d ∈ dirs,
      (matchesAt (generatePuzzleGuaranteed words seed) w r c d = true ∨
       matchesAt (generatePuzzleGuaranteed words seed) w.reverse r c d = true) := by
  intro w hw
  unfold generatePuzzleGuaranteed generateGridCore at hns ⊢
  have hall := attemptLoop_ne_sentinel m32next words 40 _ hns
  rw [List.all_eq_true] at hall
  exact gridContainsWord_exists _ _ (hall w hw)

/-- Witness for C1: with the word list `["AB"]` and seed `"s"` the
generator returns a non-sentinel grid, and every listed word is readable
from some cell along some direction. -/
theorem generatePuzzle_findability_witness :
    generatePuzzleGuaranteed [['A', 'B']] "s" ≠ sentinelGrid ∧
      ∀ w ∈ [['A', 'B']], ∃ r c : Nat, r < 10 ∧ c < 10 ∧ ∃ d ∈ dirs,
        (matchesAt (generatePuzzleGuaranteed [['A', 'B']] "s") w r c d = true ∨
         matchesAt (generatePuzzleGuaranteed [['A', 'B']] "s") w.reverse r c d = true) :=
  ⟨by decide, generatePuzzle_findability [['A', 'B']] "s" (by decide)⟩

/-! ### Overlong words force the sentinel grid (C3) -/

lemma dirs_getD_mem (idx : Nat) : dirs.getD idx (0, 1) ∈ dirs := by
  by_cases hidx : idx < dirs.length
  · have h8 : dirs.length = 8 := by decide
    rw [h8] at hidx
    interval_cases idx <;> decide
  · rw [List.getD_eq_default _ _ (le_of_not_lt hidx)]
    decide

lemma canPlace_long_false_mem (g : OGrid) (w : List Char) (hw : 10 < w.length)
    (r c : Nat) (d : Int × Int) (hd : d ∈ dirs) :
    canPlace g w r c d = false := by
  fin_cases hd <;>
  · rw [Bool.eq_false_iff]
    intro hall
    simp only [canPlace, List.all_eq_true] at hall
    have h0 := hall 0 (List.mem_range.2 (by omega))
    have h10 := hall 10 (List.mem_range.2 hw)
    simp only [Bool.and_eq_true, decide_eq_true_eq] at h0 h10
    omega

lemma tryPlaceWord_long {σ : Type} (next : σ → σ × Nat) (w : List Char)
    (hw : 10 < w.length) :
    ∀ (t : Nat) (g : OGrid) (s : σ), (tryPlaceWord next w t g s).1 = none := by
  intro t
  induction t with
  | zero => intro g s; rfl
  | succ t ih =>
    intro g s
    have hfalse := canPlace_long_false_mem g w hw
    simp only [tryPlaceWord]
    rw [if_neg]
    · exact ih g _
    · rw [Bool.not_eq_true]
      exact hfalse _ _ _ (dirs_getD_mem _)

lemma placeWords_long {σ : Type} (next : σ → σ × Nat) :
    ∀ (ws : List (List Char)) (g : OGrid) (s : σ),
      (∃ w ∈ ws, 10 < w.length) → (placeWords next ws g s).1 = none := by
  intro ws
  induction ws with
  | nil =>
    intro g s h
    obtain ⟨w, hmem, -⟩ := h
    exact absurd hmem (List.not_mem_nil w)
  | cons w rest ih =>
    intro g s h
    rw [placeWords]
    rcases hq : tryPlaceWord next w 600 g s with ⟨og, s2⟩
    cases og with
    | none => rfl
    | some g2 =>
      obtain ⟨w0, hmem, hlen⟩ := h
      rcases List.mem_cons.1 hmem with rfl | htail
      · have := tryPlaceWord_long next w0 hlen 600 g s
        rw [hq] at this
        exact absurd this (by simp)
      · exact ih g2 s2 ⟨w0, htail, hlen⟩

lemma attemptLoop_allnone {σ : Type} (next : σ → σ × Nat)
    (words : List (List Char))
    (h : ∀ (g : OGrid) (s : σ), (placeWords next words g s).1 = none) :
    ∀ (fuel : Nat) (s : σ), attemptLoop next words fuel s = sentinelGrid := by
  intro fuel
  induction fuel with
  | zero => intro s; rfl
  | succ fuel ih =>
    intro s
    rw [attemptLoop]
    rcases hq : placeWords next words emptyOGrid s with ⟨og, s2⟩
    have hnone := h emptyOGrid s
    rw [hq] at hnone
    simp only at hnone
    subst hnone
    exact ih s2

/-- **C3.** If the word list contains a word longer than the grid size,
every placement try for it fails, so all 40 attempts fail and
`generatePuzzleGuaranteed` returns the sentinel grid whose 10×10 cells
are all the filler character `'X'` — never a grid with the word silently
unplaced. -/
theorem generatePuzzle_sentinel_of_overlong (words : List (List Char))
    (seed : String) (h : ∃ w ∈ words, 10 < w.length) :
    generatePuzzleGuaranteed words seed = sentinelGrid := by
  unfold generatePuzzleGuaranteed generateGridCore
  exact attemptLoop_allnone m32next words
    (fun g s => placeWords_long m32next words g s h) 40 _

/-- Witness for C3: an 11-letter word cannot fit a 10×10 grid, and the
generator returns the all-`'X'` sentinel on it. -/
theorem generatePuzzle_sentinel_of_overlong_witness :
    (∃ w ∈ [List.replicate 11 'A'], 10 < w.length) ∧
      generatePuzzleGuaranteed [List.replicate 11 'A'] "daily" = sentinelGrid :=
  ⟨by decide, generatePuzzle_sentinel_of_overlong [List.replicate 11 'A'] "daily" (by decide)⟩

/-! ## Word selection (`pickWords` in `src/useAuth.ts`) -/

/-- The destructuring swap
`[shuffled[i], shuffled[j]] = [shuffled[j], shuffled[i]]`
(both indices are always in range in the source). -/
def listSwap (l : List String) (i j : Nat) : List String :=
  match l.get? i, l.get? j with
  | some x, some y => (l.set i y).set j x
  | _, _ => l

/-- The Fisher–Yates loop of `pickWords`:
`for (let i = length-1; i > 0; i--) { j = floor(rand()*(i+1)); swap i j }`.
The recursion argument is the current value of `i`; each iteration
consumes one RNG value. -/
def fisherYates {σ : Type} (next : σ → σ × Nat) :
    List String → Nat → σ → List String × σ
  | arr, 0, s => (arr, s)
  | arr, m + 1, s =>
    let p := next s
    fisherYates next (listSwap arr (m + 1) (randIdx p.2 (m + 2))) m p.1

/-- `pickWords(bank, count, gridSize, seed)` from `src/useAuth.ts`:
filter the bank to words fitting the grid, shuffle with the mulberry32
stream seeded by `hashSeed(seed)`, take the first `count`, uppercase. -/
def pickWords (bank : List String) (count gridSize : Nat) (seed : String) :
    List String :=
  ((fisherYates m32next (bank.filter fun w => w.length ≤ gridSize)
      ((bank.filter fun w => w.length ≤ gridSize).length - 1)
      (hashSeedStr seed)).1.take count).map fun w => w.map Char.toUpper

/-- Reference definition following the spec's words: filter preserving
order, Fisher–Yates driven by the pure stream `stream(hash(seed))`
consumed by index (`i` from `length-1` down to `1`, swap with
`floor(rand()*(i+1))`), take `count`, uppercase. -/
def pickWordsSpec (bank : List String) (count gridSize : Nat) (seed : String) :
    List String :=
  ((fisherYates (idxNext (m32stream (hashSeedStr seed)))
      (bank.filter fun w => w.length ≤ gridSize)
      ((bank.filter fun w => w.length ≤ gridSize).length - 1)
      0).1.take count).map fun w => w.map Char.toUpper

lemma fisherYates_sim {σ₁ σ₂ : Type} (n₁ : σ₁ → σ₁ × Nat) (n₂ : σ₂ → σ₂ × Nat)
    (f : σ₂ → σ₁) (h : ∀ s, n₁ (f s) = (f (n₂ s).1, (n₂ s).2)) :
    ∀ (m : Nat) (arr : List String) (s : σ₂),
      fisherYates n₁ arr m (f s) =
        ((fisherYates n₂ arr m s).1, f (fisherYates n₂ arr m s).2) := by
  intro m
  induction m with
  | zero => intro arr s; rfl
  | succ m ih =>
    intro arr s
    simp only [fisherYates, h]
    exact ih _ _

lemma listSwap_length (l : List String) (i j : Nat) :
    (listSwap l i j).length = l.length := by
  unfold listSwap
  cases l.get? i <;> cases l.get? j <;> simp

lemma fisherYates_length {σ : Type} (next : σ → σ × Nat) :
    ∀ (m : Nat) (arr : List String) (s : σ),
      ((fisherYates next arr m s).1).length = arr.length := by
  intro m
  induction m with
  | zero => intro arr s; rfl
  | succ m ih =>
    intro arr s
    simp only [fisherYates]
    rw [ih, listSwap_length]

/-- **C4.** `pickWords` equals the spec's reference definition (filter
preserving order, Fisher–Yates over the stream seeded once with the
hash, take `count`, uppercase), and it returns fewer than `count` words
exactly when the filtered bank has fewer than `count` entries — it never
pads (it is a total function, so it never throws). -/
theorem pickWords_matches_spec (bank : List String) (count gridSize : Nat)
    (seed : String) :
    pickWords bank count gridSize seed = pickWordsSpec bank count gridSize seed ∧
      ((pickWords bank count gridSize seed).length < count ↔
        (bank.filter fun w => w.length ≤ gridSize).length < count) := by
  have hlen : (pickWords bank count gridSize seed).length =
      min count (bank.filter fun w => w.length ≤ gridSize).length := by
    unfold pickWords
    rw [List.length_map, List.length_take, fisherYates_length]
  constructor
  · unfold pickWords pickWordsSpec
    have hsim := fisherYates_sim m32next (idxNext (m32stream (hashSeedStr seed)))
      (m32state (hashSeedStr seed)) (m32_simHom (hashSeedStr seed))
      ((bank.filter fun w => w.length ≤ gridSize).length - 1)
      (bank.filter fun w => w.length ≤ gridSize) 0
    rw [show m32state (hashSeedStr seed) 0 = hashSeedStr seed from rfl] at hsim
    rw [hsim]
  · rw [hlen]
    omega

/-! ## Gesture engine A (`onDown`/`onMove`/`onUp` in `src/App.tsx`)

The handlers are modelled in the active-game situation
(`page === "game"`, `gameReady`, `!packComplete`): outside it every
handler returns without touching the gesture state, so the claims about
gesture behaviour concern exactly this situation.  Screen coordinates
are rationals; the live feedback line's start point is always the start
cell's centre, so only its end point is part of the state. -/

/-- A screen point (`clientX`/`clientY` or rect-relative coordinates). -/
structure Pt where
  x : ℚ
  y : ℚ
deriving DecidableEq

/-- The gesture state of `App.tsx`: the `startCell`, `startPoint` and
`dirLock` refs, the live line's end point, and the `found` set (a list
without duplicates, newest first). -/
structure StateA where
  startCell : Option (Int × Int)
  startPoint : Option Pt
  dirLock : Option (Int × Int)
  liveEnd : Option Pt
  found : List (List Char)
deriving DecidableEq

/-- The fixed surroundings of a gesture: the grid's bounding rect
(`getBoundingClientRect`), the letter grid and the puzzle word list. -/
structure EnvA where
  left : ℚ
  top : ℚ
  width : ℚ
  height : ℚ
  grid : Grid
  words : List (List Char)

/-- `Math.sign`. -/
def qsign (q : ℚ) : Int :=
  if 0 < q then 1 else if q < 0 then -1 else 0

/-- `center(cell)`: rect-relative centre of a cell. -/
def centerA (env : EnvA) (cell : Int × Int) : Pt :=
  ⟨((cell.2 : ℚ) + 0.5) * (env.width / 10), ((cell.1 : ℚ) + 0.5) * (env.height / 10)⟩

/-- Squared distance; `dist(a,b) = Math.sqrt(dx*dx + dy*dy)` enters only
the comparison with the nonnegative `END_TOLERANCE`, which is modelled
exactly by comparing squares. -/
def dist2 (a b : Pt) : ℚ :=
  (a.x - b.x) ^ 2 + (a.y - b.y) ^ 2

/-- `onDown`: resolve the pointer to a grid cell by rect geometry; out
of bounds is ignored, otherwise the start cell and point are recorded
and the direction lock reset. -/
def onDownA (env : EnvA) (st : StateA) (x y : ℚ) : StateA :=
  if ⌊(y - env.top) / env.height * 10⌋ < 0 ∨ 10 ≤ ⌊(y - env.top) / env.height * 10⌋ ∨
      ⌊(x - env.left) / env.width * 10⌋ < 0 ∨ 10 ≤ ⌊(x - env.left) / env.width * 10⌋ then
    st
  else
    { st with
      startCell := some (⌊(y - env.top) / env.height * 10⌋, ⌊(x - env.left) / env.width * 10⌋),
      startPoint := some ⟨x, y⟩,
      dirLock := none }

/-- `onMove`: while unlocked and past the `MIN_PIXELS = 14` threshold,
classify the displacement into a diagonal (`DIAGONAL_SLOP = 0.58`),
vertical or horizontal (`AXIS_DOMINANCE = 2.6`) lock, or stay unlocked;
always refresh the live line's end point. -/
def onMoveA (env : EnvA) (st : StateA) (x y : ℚ) : StateA :=
  match st.startCell with
  | none => st
  | some _ =>
    { st with
      dirLock :=
        match st.dirLock, st.startPoint with
        | none, some p =>
          if |x - p.x| < 14 ∧ |y - p.y| < 14 then none
          else if min |x - p.x| |y - p.y| / max |x - p.x| |y - p.y| ≥ (0.58 : ℚ) then
            some (qsign (y - p.y), qsign (x - p.x))
          else if |y - p.y| ≥ |x - p.x| * (2.6 : ℚ) then some (qsign (y - p.y), 0)
          else if |x - p.x| ≥ |y - p.y| * (2.6 : ℚ) then some (0, qsign (x - p.x))
          else none
        | l, _ => l,
      liveEnd := some ⟨x - env.left, y - env.top⟩ }

/-- The claim's classification rule, stated on the displacement
`(dx, dy)`: lock diagonal `(sign dy, sign dx)` when `min/max ≥
DIAGONAL_SLOP`, else vertical when `ady ≥ adx⬝AXIS_DOMINANCE`, else
horizontal when `adx ≥ ady⬝AXIS_DOMINANCE`, else stay unlocked; below
the `MIN_PIXELS` threshold nothing is classified. -/
def classifyA (dx dy : ℚ) : Option (Int × Int) :=
  if |dx| < 14 ∧ |dy| < 14 then none
  else if min |dx| |dy| / max |dx| |dy| ≥ (0.58 : ℚ) then some (qsign dy, qsign dx)
  else if |dy| ≥ |dx| * (2.6 : ℚ) then some (qsign dy, 0)
  else if |dx| ≥ |dy| * (2.6 : ℚ) then some (0, qsign dx)
  else none

/-- The traversed cells `start + lock⬝i`, `i = 0 … len-1`
(`Array.from({length: w.length}, (_, i) => ...)`). -/
def cellsFrom (sc d : Int × Int) (len : Nat) : List (Int × Int) :=
  (List.range len).map fun i => (sc.1 + d.1 * (i : Int), sc.2 + d.2 * (i : Int))

/-- A cell outside the 10×10 grid
(`c.r < 0 || c.r >= GRID_SIZE || c.c < 0 || c.c >= GRID_SIZE`). -/
def cellOOB (p : Int × Int) : Bool :=
  decide (p.1 < 0) || decide (10 ≤ p.1) || decide (p.2 < 0) || decide (10 ≤ p.2)

/-- The release point used in the tolerance check:
`liveLine?.end ?? center(cells[cells.length - 1])`. -/
def fingerA (env : EnvA) (liveEnd : Option Pt) (sc d : Int × Int) (len : Nat) : Pt :=
  liveEnd.getD (centerA env ((cellsFrom sc d len).getD (len - 1) (0, 0)))

/-- The word loop of `onUp` in `src/App.tsx`: skip found words, skip if
any traversed cell is out of bounds, skip unless the traversed letters
equal the word forward or reversed, skip if the release point is farther
than `END_TOLERANCE = CELL_RADIUS⬝0.99` from both the start and the end
centre; the first surviving word is the match (`break`). -/
def scanWordsA (env : EnvA) (found : List (List Char)) (sc d : Int × Int)
    (liveEnd : Option Pt) : List (List Char) → Option (List Char)
  | [] => none
  | w :: ws =>
    if w ∈ found then scanWordsA env found sc d liveEnd ws
    else if (cellsFrom sc d w.length).any cellOOB then scanWordsA env found sc d liveEnd ws
    else if ((cellsFrom sc d w.length).map fun p => getCell env.grid p.1 p.2) ≠ w ∧
        ((cellsFrom sc d w.length).map fun p => getCell env.grid p.1 p.2).reverse ≠ w then
      scanWordsA env found sc d liveEnd ws
    else if min
        (dist2 (fingerA env liveEnd sc d w.length)
          (centerA env ((cellsFrom sc d w.length).getD 0 (0, 0))))
        (dist2 (fingerA env liveEnd sc d w.length)
          (centerA env ((cellsFrom sc d w.length).getD (w.length - 1) (0, 0)))) >
        (env.width / 10 / 2 * (0.99 : ℚ)) ^ 2 then
      scanWordsA env found sc d liveEnd ws
    else some w

/-- `onUp` in `src/App.tsx`: without a start cell and a locked direction
the gesture is discarded; otherwise the word scan may add one word to
the found set; the `finally` block clears all transient gesture state
either way. -/
def onUpA (env : EnvA) (st : StateA) : StateA :=
  match st.startCell, st.dirLock with
  | some sc, some d =>
    { startCell := none, startPoint := none, dirLock := none, liveEnd := none,
      found :=
        match scanWordsA env st.found sc d st.liveEnd env.words with
        | some w => w :: st.found
        | none => st.found }
  | _, _ =>
    { startCell := none, startPoint := none, dirLock := none, liveEnd := none,
      found := st.found }

/-- A sequence of `onMove` events. -/
def applyMovesA (env : EnvA) (moves : List (ℚ × ℚ)) (st : StateA) : StateA :=
  moves.foldl (fun s m => onMoveA env s m.1 m.2) st

/-! ### Direction classification and lock permanence (C6) -/

lemma onMoveA_locked (env : EnvA) (st : StateA) (x y : ℚ) (d : Int × Int)
    (hd : st.dirLock = some d) : (onMoveA env st x y).dirLock = some d := by
  unfold onMoveA
  cases hsc : st.startCell with
  | none => rw [← hd]
  | some sc => simp [hd]

lemma applyMovesA_locked (env : EnvA) (moves : List (ℚ × ℚ)) :
    ∀ (st : StateA) (d : Int × Int), st.dirLock = some d →
      (applyMovesA env moves st).dirLock = some d := by
  induction moves with
  | nil => intro st d h; exact h
  | cons m rest ih =>
    intro st d h
    unfold applyMovesA at ih ⊢
    rw [List.foldl_cons]
    exact ih _ d (onMoveA_locked env st m.1 m.2 d h)

/-- **C6.** On a pointer move during an unlocked drag, `onMove` locks
exactly the direction given by the claim's classification of the
displacement from the start point (none below the 14-pixel threshold,
diagonal `(sign dy, sign dx)` when `min/max ≥ 0.58`, else vertical when
`ady ≥ adx⬝2.6`, else horizontal when `adx ≥ ady⬝2.6`, else none); and
once a direction is locked, no sequence of later moves of the gesture
ever changes it. -/
theorem onMove_lock_classification (env : EnvA) (st : StateA) (x y : ℚ)
    (sc : Int × Int) (p : Pt) (moves : List (ℚ × ℚ)) (d : Int × Int)
    (hsc : st.startCell = some sc) (hsp : st.startPoint = some p) :
    (st.dirLock = none → (onMoveA env st x y).dirLock = classifyA (x - p.x) (y - p.y)) ∧
      ((onMoveA env st x y).dirLock = some d →
        (applyMovesA env moves (onMoveA env st x y)).dirLock = some d) := by
  constructor
  · intro hn
    unfold onMoveA classifyA
    rw [hsc]
    simp only [hn, hsp]
  · exact fun h => applyMovesA_locked env moves _ d h

/-- Shared test fixture: a 10×10 grid of `'Q'` with `CAT` eastward from
row 2, column 1. -/
def gridCAT : Grid :=
  (List.replicate 10 (List.replicate 10 'Q')).set 2
    ((((List.replicate 10 'Q').set 1 'C').set 2 'A').set 3 'T')

/-- Shared test fixture: a 100×100 rect at the origin over `gridCAT`
with the single word `CAT`. -/
def envA0 : EnvA :=
  { left := 0, top := 0, width := 100, height := 100,
    grid := gridCAT, words := [['C', 'A', 'T']] }

/-- Shared test fixture: a fresh unlocked gesture started at cell (0,0)
and screen point (0,0). -/
def stA0 : StateA :=
  { startCell := some (0, 0), startPoint := some ⟨0, 0⟩, dirLock := none,
    liveEnd := none, found := [] }

/-- Witness for C6 at a concrete rightward move (then one more move):
the move locks `classifyA 20 1 = East` and a later move keeps it. -/
theorem onMove_lock_classification_witness :
    stA0.startCell = some (0, 0) ∧ stA0.startPoint = some (⟨0, 0⟩ : Pt) ∧
      ((stA0.dirLock = none →
          (onMoveA envA0 stA0 20 1).dirLock =
            classifyA (20 - (⟨0, 0⟩ : Pt).x) (1 - (⟨0, 0⟩ : Pt).y)) ∧
        ((onMoveA envA0 stA0 20 1).dirLock = some (0, 1) →
          (applyMovesA envA0 [(40, 2)] (onMoveA envA0 stA0 20 1)).dirLock = some (0, 1))) :=
  ⟨rfl, rfl,
    onMove_lock_classification envA0 stA0 20 1 (0, 0) ⟨0, 0⟩ [(40, 2)] (0, 1) rfl rfl⟩

/-! ### A word is only matched along the locked direction (C7) -/

lemma scanWordsA_some (env : EnvA) (found : List (List Char)) (sc d : Int × Int)
    (liveEnd : Option Pt) :
    ∀ (ws : List (List Char)) (w : List Char),
      scanWordsA env found sc d liveEnd ws = some w →
      (∀ p ∈ cellsFrom sc d w.length, 0 ≤ p.1 ∧ p.1 < 10 ∧ 0 ≤ p.2 ∧ p.2 < 10) ∧
        (((cellsFrom sc d w.length).map fun p => getCell env.grid p.1 p.2) = w ∨
          ((cellsFrom sc d w.length).map fun p => getCell env.grid p.1 p.2).reverse = w) := by
  intro ws
  induction ws with
  | nil => intro w h; exact absurd h (by simp [scanWordsA])
  | cons w0 rest ih =>
    intro w h
    unfold scanWordsA at h
    split_ifs at h with h1 h2 h3 h4
    · exact ih w h
    · exact ih w h
    · exact ih w h
    · exact ih w h
    · obtain rfl : w0 = w := Option.some.inj h
      constructor
      · intro p hp
        have hno : cellOOB p = false := by
          cases hcb : cellOOB p
          · rfl
          · exact absurd (List.any_eq_true.2 ⟨p, hp, hcb⟩) h2
        unfold cellOOB at hno
        simp only [Bool.or_eq_false_iff, decide_eq_false_iff_not] at hno
        omega
      · by_cases hf : ((cellsFrom sc d w0.length).map fun p => getCell env.grid p.1 p.2) = w0
        · exact Or.inl hf
        · by_cases hr :
            ((cellsFrom sc d w0.length).map fun p => getCell env.grid p.1 p.2).reverse = w0
          · exact Or.inr hr
          · exact absurd ⟨hf, hr⟩ h3

lemma onUpA_found (env : EnvA) (st : StateA) :
    (onUpA env st).found = st.found ∨
      ∃ sc d w, st.startCell = some sc ∧ st.dirLock = some d ∧
        scanWordsA env st.found sc d st.liveEnd env.words = some w ∧
        (onUpA env st).found = w :: st.found := by
  unfold onUpA
  rcases hsc : st.startCell with _ | sc
  · exact Or.inl rfl
  rcases hdl : st.dirLock with _ | d
  · exact Or.inl rfl
  dsimp only
  rcases hscan : scanWordsA env st.found sc d st.liveEnd env.words with _ | w'
  · exact Or.inl rfl
  · exact Or.inr ⟨sc, d, w', rfl, rfl, hscan, rfl⟩

/-- **C7.** On pointer-up, a word can enter the found set only by being
read along the locked direction from the start cell: if `onUp` reports
`w` found, then either `w` was already found, or the gesture had a start
cell `sc` and locked direction `d` and the cells `sc + d⬝i`,
`i = 0 … w.length-1`, all lie in bounds and their letters spell `w`
forward or reversed.  A word placed along a different direction is never
matched by this gesture. -/
theorem onUp_matches_locked_direction_only (env : EnvA) (st : StateA)
    (w : List Char) (hw : w ∈ (onUpA env st).found) :
    w ∈ st.found ∨
      ∃ sc d, st.startCell = some sc ∧ st.dirLock = some d ∧
        (∀ p ∈ cellsFrom sc d w.length, 0 ≤ p.1 ∧ p.1 < 10 ∧ 0 ≤ p.2 ∧ p.2 < 10) ∧
        (((cellsFrom sc d w.length).map fun p => getCell env.grid p.1 p.2) = w ∨
          ((cellsFrom sc d w.length).map fun p => getCell env.grid p.1 p.2).reverse = w) := by
  rcases onUpA_found env st with hsame | ⟨sc, d, w', hsc, hdl, hscan, hfound⟩
  · rw [hsame] at hw
    exact Or.inl hw
  · rw [hfound] at hw
    rcases List.mem_cons.1 hw with rfl | hmem
    · exact Or.inr ⟨sc, d, hsc, hdl, scanWordsA_some env st.found sc d st.liveEnd env.words w hscan⟩
    · exact Or.inl hmem

/-- Shared test fixture: a gesture from cell (2,1) locked East. -/
def stA1 : StateA :=
  { startCell := some (2, 1), startPoint := some ⟨15, 25⟩, dirLock := some (0, 1),
    liveEnd := none, found := [] }

/-- Witness for C7: on `gridCAT` a release of the gesture locked East
from (2,1) reports `CAT` found, and the theorem yields the cells along
East spelling it. -/
theorem onUp_matches_locked_direction_only_witness :
    ['C', 'A', 'T'] ∈ (onUpA envA0 stA1).found ∧
      (['C', 'A', 'T'] ∈ stA1.found ∨
        ∃ sc d, stA1.startCell = some sc ∧ stA1.dirLock = some d ∧
          (∀ p ∈ cellsFrom sc d ['C', 'A', 'T'].length,
            0 ≤ p.1 ∧ p.1 < 10 ∧ 0 ≤ p.2 ∧ p.2 < 10) ∧
          (((cellsFrom sc d ['C', 'A', 'T'].length).map
              fun p => getCell envA0.grid p.1 p.2) = ['C', 'A', 'T'] ∨
            ((cellsFrom sc d ['C', 'A', 'T'].length).map
              fun p => getCell envA0.grid p.1 p.2).reverse = ['C', 'A', 'T'])) := by
  have hmem : ['C', 'A', 'T'] ∈ (onUpA envA0 stA1).found := by
    norm_num [onUpA, stA1, envA0, scanWordsA, cellsFrom, cellOOB, getCell, centerA,
      dist2, fingerA, List.range_succ]
    all_goals decide
  exact ⟨hmem, onUp_matches_locked_direction_only envA0 stA1 ['C', 'A', 'T'] hmem⟩

/-! ### Sub-threshold drags lock nothing and match nothing (C9) -/

lemma onMoveA_preserves (env : EnvA) (st : StateA) (x y : ℚ) :
    (onMoveA env st x y).startCell = st.startCell ∧
      (onMoveA env st x y).startPoint = st.startPoint ∧
      (onMoveA env st x y).found = st.found := by
  unfold onMoveA
  rcases hsc : st.startCell with _ | sc
  · exact ⟨hsc, rfl, rfl⟩
  · exact ⟨rfl, rfl, rfl⟩

lemma onMoveA_subthreshold (env : EnvA) (st : StateA) (x y : ℚ) (p : Pt)
    (hdl : st.dirLock = none) (hsp : st.startPoint = some p)
    (hx : |x - p.x| < 14) (hy : |y - p.y| < 14) :
    (onMoveA env st x y).dirLock = none := by
  unfold onMoveA
  rcases hsc : st.startCell with _ | sc
  · exact hdl
  · simp [hdl, hsp, hx, hy]

lemma applyMovesA_subthreshold (env : EnvA) (x0 y0 : ℚ) :
    ∀ (moves : List (ℚ × ℚ)) (st : StateA),
      (∀ m ∈ moves, |m.1 - x0| < 14 ∧ |m.2 - y0| < 14) →
      st.dirLock = none →
      (st.startPoint = some ⟨x0, y0⟩ ∨ st.startCell = none) →
      (applyMovesA env moves st).dirLock = none ∧
        (applyMovesA env moves st).found = st.found := by
  intro moves
  induction moves with
  | nil => intro st _ hdl _; exact ⟨hdl, rfl⟩
  | cons m rest ih =>
    intro st hmv hdl hinv
    have hm0 := hmv m (List.mem_cons_self m rest)
    have hpres := onMoveA_preserves env st m.1 m.2
    have hdl' : (onMoveA env st m.1 m.2).dirLock = none := by
      rcases hinv with hsp | hscnone
      · exact onMoveA_subthreshold env st m.1 m.2 ⟨x0, y0⟩ hdl hsp hm0.1 hm0.2
      · unfold onMoveA
        rw [hscnone]
        exact hdl
    have hinv' : (onMoveA env st m.1 m.2).startPoint = some ⟨x0, y0⟩ ∨
        (onMoveA env st m.1 m.2).startCell = none := by
      rcases hinv with hsp | hscnone
      · exact Or.inl (hpres.2.1.trans hsp)
      · exact Or.inr (hpres.1.trans hscnone)
    have hrest : ∀ m' ∈ rest, |m'.1 - x0| < 14 ∧ |m'.2 - y0| < 14 :=
      fun m' hm' => hmv m' (List.mem_cons_of_mem m hm')
    have hih := ih (onMoveA env st m.1 m.2) hrest hdl' hinv'
    unfold applyMovesA at hih ⊢
    rw [List.foldl_cons]
    exact ⟨hih.1, hih.2.trans hpres.2.2⟩

/-- **C9.** A gesture whose displacement from the start point stays
below the 14-pixel threshold in both components at every move never
locks a direction, and its release matches nothing: the found set after
`onUp` is the one the gesture started with. -/
theorem subthreshold_gesture_no_match (env : EnvA) (F : List (List Char))
    (x0 y0 : ℚ) (moves : List (ℚ × ℚ))
    (h : ∀ m ∈ moves, |m.1 - x0| < 14 ∧ |m.2 - y0| < 14) :
    (applyMovesA env moves (onDownA env ⟨none, none, none, none, F⟩ x0 y0)).dirLock = none ∧
      (onUpA env (applyMovesA env moves
        (onDownA env ⟨none, none, none, none, F⟩ x0 y0))).found = F := by
  have h0 : (onDownA env ⟨none, none, none, none, F⟩ x0 y0).dirLock = none ∧
      (onDownA env ⟨none, none, none, none, F⟩ x0 y0).found = F ∧
      ((onDownA env ⟨none, none, none, none, F⟩ x0 y0).startPoint = some ⟨x0, y0⟩ ∨
        (onDownA env ⟨none, none, none, none, F⟩ x0 y0).startCell = none) := by
    unfold onDownA
    split_ifs with hoob
    · exact ⟨rfl, rfl, Or.inr rfl⟩
    · exact ⟨rfl, rfl, Or.inl rfl⟩
  obtain ⟨hd0, hf0, hinv0⟩ := h0
  obtain ⟨hdl, hfound⟩ := applyMovesA_subthreshold env x0 y0 moves _ h hd0 hinv0
  refine ⟨hdl, ?_⟩
  rcases onUpA_found env (applyMovesA env moves
      (onDownA env ⟨none, none, none, none, F⟩ x0 y0)) with hsame | ⟨sc, d, w, hsc, hdlk, -, -⟩
  · rw [hsame, hfound, hf0]
  · simp [hdl] at hdlk

/-- Witness for C9: a pointer-down at (50,50) followed by two moves of
less than 14 pixels in each component locks nothing and matches
nothing. -/
theorem subthreshold_gesture_no_match_witness :
    (∀ m ∈ [((55 : ℚ), (52 : ℚ)), (48, 47)], |m.1 - 50| < 14 ∧ |m.2 - 50| < 14) ∧
      (applyMovesA envA0 [((55 : ℚ), (52 : ℚ)), (48, 47)]
        (onDownA envA0 ⟨none, none, none, none, []⟩ 50 50)).dirLock = none ∧
      (onUpA envA0 (applyMovesA envA0 [((55 : ℚ), (52 : ℚ)), (48, 47)]
        (onDownA envA0 ⟨none, none, none, none, []⟩ 50 50))).found = [] := by
  have hm : ∀ m ∈ [((55 : ℚ), (52 : ℚ)), (48, 47)], |m.1 - 50| < 14 ∧ |m.2 - 50| < 14 := by
    intro m hmem
    fin_cases hmem <;> constructor <;> norm_num
  exact ⟨hm, subthreshold_gesture_no_match envA0 [] 50 50 _ hm⟩

/-! ## Gesture engine P (`onUp`/`cellFromClient` in `unnamed/part_003`)

This variant of the app resolves screen points to cells through the DOM
(`document.elementFromPoint` + `data-r`/`data-c`), so cell resolution is
an abstract function `cellAt` of the environment; its `onUp` re-derives
the step direction from the final displacement and tolerates imprecise
lifts through the Chebyshev check `liftCloseTo`. -/

/-- The gesture state of the `part_003` app: the refs `startCell`,
`startPoint`, `lastClient`, `dirLock`, and the `found` set. -/
structure StateP where
  startCell : Option (Int × Int)
  startPoint : Option Pt
  lastClient : Option Pt
  dirLock : Option (Int × Int)
  found : List (List Char)

/-- Environment of the `part_003` gesture engine: the grid, the word
list, and `cellFromClient` as an abstract resolution function (`none`
when the point hits no `.cell` element, e.g. outside the grid). -/
structure EnvP where
  grid : Grid
  words : List (List Char)
  cellAt : Pt → Option (Int × Int)

/-- The `finally` block of `onUp`: all transient refs cleared. -/
def clearedP (f : List (List Char)) : StateP :=
  { startCell := none, startPoint := none, lastClient := none, dirLock := none, found := f }

/-- The step-direction derivation of `onUp` in `part_003`: from the
displacement between `startPoint` and the lift point (tiny drags under
8 pixels abort, strict axis dominance factor 2, otherwise diagonal), or,
without a start point, from the sign of the cell delta to the lift cell;
`none` models the early `return`. -/
def deriveStepP (sp : Option Pt) (lift : Pt) (liftCell : Option (Int × Int))
    (sc : Int × Int) : Option (Int × Int) :=
  match sp with
  | some p =>
    if |lift.x - p.x| < 8 ∧ |lift.y - p.y| < 8 then none
    else if |lift.y - p.y| > |lift.x - p.x| * 2 then some (qsign (lift.y - p.y), 0)
    else if |lift.x - p.x| > |lift.y - p.y| * 2 then some (0, qsign (lift.x - p.x))
    else some (qsign (lift.y - p.y), qsign (lift.x - p.x))
  | none =>
    match liftCell with
    | some lc => some ((lc.1 - sc.1).sign, (lc.2 - sc.2).sign)
    | none => some (0, 0)

/-- `liftCloseTo` from `part_003`: with no resolved lift cell the check
passes; otherwise the Chebyshev distance between the lift cell and the
implied end cell must be at most `tol` (`END_TOL = 1`). -/
def liftCloseTo (liftCell : Option (Int × Int)) (e : Int × Int) (tol : Int) : Bool :=
  match liftCell with
  | none => true
  | some lc => decide (max |lc.1 - e.1| |lc.2 - e.2| ≤ tol)

/-- The word loop of `onUp` in `part_003`: skip found words, skip when
the implied end cell `start + step⬝(len-1)` leaves the grid, skip when
the lift is not close to the end cell, skip unless the letters along the
cells spell the word forward or backward; first surviving word wins. -/
def scanWordsP (env : EnvP) (found : List (List Char)) (sc step : Int × Int)
    (liftCell : Option (Int × Int)) : List (List Char) → Option (List Char)
  | [] => none
  | w :: ws =>
    if w ∈ found then scanWordsP env found sc step liftCell ws
    else if sc.1 + step.1 * ((w.length : Int) - 1) < 0 ∨
        10 ≤ sc.1 + step.1 * ((w.length : Int) - 1) ∨
        sc.2 + step.2 * ((w.length : Int) - 1) < 0 ∨
        10 ≤ sc.2 + step.2 * ((w.length : Int) - 1) then
      scanWordsP env found sc step liftCell ws
    else if !liftCloseTo liftCell
        (sc.1 + step.1 * ((w.length : Int) - 1), sc.2 + step.2 * ((w.length : Int) - 1)) 1 then
      scanWordsP env found sc step liftCell ws
    else if ((cellsFrom sc step w.length).map fun p => getCell env.grid p.1 p.2) ≠ w ∧
        ((cellsFrom sc step w.length).reverse.map fun p => getCell env.grid p.1 p.2) ≠ w then
      scanWordsP env found sc step liftCell ws
    else some w

/-- `onUp` from `unnamed/part_003` in the active-game situation: needs a
start cell and a last client point, derives the step direction, rejects
a zero step, scans the words, and clears all transient state. -/
def onUpP (env : EnvP) (st : StateP) : StateP :=
  match st.startCell, st.lastClient with
  | some sc, some lift =>
    match deriveStepP st.startPoint lift (env.cellAt lift) sc with
    | none => clearedP st.found
    | some step =>
      if step = (0, 0) then clearedP st.found
      else
        clearedP
          (match scanWordsP env st.found sc step (env.cellAt lift) env.words with
           | some w => w :: st.found
           | none => st.found)
  | _, _ => clearedP st.found

/-- Reference variant for the claim about unresolved lift cells: the
same word loop with the lift-proximity check removed. -/
def scanWordsPNoLift (env : EnvP) (found : List (List Char)) (sc step : Int × Int) :
    List (List Char) → Option (List Char)
  | [] => none
  | w :: ws =>
    if w ∈ found then scanWordsPNoLift env found sc step ws
    else if sc.1 + step.1 * ((w.length : Int) - 1) < 0 ∨
        10 ≤ sc.1 + step.1 * ((w.length : Int) - 1) ∨
        sc.2 + step.2 * ((w.length : Int) - 1) < 0 ∨
        10 ≤ sc.2 + step.2 * ((w.length : Int) - 1) then
      scanWordsPNoLift env found sc step ws
    else if ((cellsFrom sc step w.length).map fun p => getCell env.grid p.1 p.2) ≠ w ∧
        ((cellsFrom sc step w.length).reverse.map fun p => getCell env.grid p.1 p.2) ≠ w then
      scanWordsPNoLift env found sc step ws
    else some w

/-- Reference variant of `onUpP` whose scan ignores the lift-proximity
tolerance altogether. -/
def onUpPNoLift (env : EnvP) (st : StateP) : StateP :=
  match st.startCell, st.lastClient with
  | some sc, some lift =>
    match deriveStepP st.startPoint lift (env.cellAt lift) sc with
    | none => clearedP st.found
    | some step =>
      if step = (0, 0) then clearedP st.found
      else
        clearedP
          (match scanWordsPNoLift env st.found sc step env.words with
           | some w => w :: st.found
           | none => st.found)
  | _, _ => clearedP st.found

/-! ### The lift must be near the implied end cell (C8) -/

lemma scanWordsP_some (env : EnvP) (found : List (List Char)) (sc step : Int × Int)
    (liftCell : Option (Int × Int)) :
    ∀ (ws : List (List Char)) (w : List Char),
      scanWordsP env found sc step liftCell ws = some w →
      (0 ≤ sc.1 + step.1 * ((w.length : Int) - 1) ∧
        sc.1 + step.1 * ((w.length : Int) - 1) < 10 ∧
        0 ≤ sc.2 + step.2 * ((w.length : Int) - 1) ∧
        sc.2 + step.2 * ((w.length : Int) - 1) < 10) ∧
      liftCloseTo liftCell
        (sc.1 + step.1 * ((w.length : Int) - 1),
          sc.2 + step.2 * ((w.length : Int) - 1)) 1 = true := by
  intro ws
  induction ws with
  | nil => intro w h; exact absurd h (by simp [scanWordsP])
  | cons w0 rest ih =>
    intro w h
    unfold scanWordsP at h
    split_ifs at h with h1 h2 h3 h4
    · exact ih w h
    · exact ih w h
    · exact ih w h
    · exact ih w h
    · obtain rfl : w0 = w := Option.some.inj h
      constructor
      · push_neg at h2
        omega
      · cases hb : liftCloseTo liftCell
            (sc.1 + step.1 * ((w0.length : Int) - 1),
              sc.2 + step.2 * ((w0.length : Int) - 1)) 1
        · exact absurd (by simp [hb]) h3
        · rfl

lemma onUpP_found (env : EnvP) (st : StateP) :
    (onUpP env st).found = st.found ∨
      ∃ sc lift step w, st.startCell = some sc ∧ st.lastClient = some lift ∧
        deriveStepP st.startPoint lift (env.cellAt lift) sc = some step ∧
        scanWordsP env st.found sc step (env.cellAt lift) env.words = some w ∧
        (onUpP env st).found = w :: st.found := by
  unfold onUpP
  rcases hsc : st.startCell with _ | sc
  · exact Or.inl rfl
  rcases hlc : st.lastClient with _ | lift
  · exact Or.inl rfl
  dsimp only
  rcases hds : deriveStepP st.startPoint lift (env.cellAt lift) sc with _ | step
  · exact Or.inl rfl
  dsimp only
  by_cases hz : step = (0, 0)
  · rw [if_pos hz]
    exact Or.inl rfl
  rw [if_neg hz]
  rcases hscan : scanWordsP env st.found sc step (env.cellAt lift) env.words with _ | w
  · exact Or.inl rfl
  · exact Or.inr ⟨sc, lift, step, w, rfl, rfl, hds, hscan, rfl⟩

/-- **C8.** On release, a not-yet-found word is matched only if its
implied end cell `start + step⬝(length-1)` lies inside the 10×10 grid
and, when the release point resolves to a grid cell, that cell is within
Chebyshev distance 1 (`END_TOL`) of the implied end cell; matches whose
resolved lift cell is farther are rejected. -/
theorem release_near_implied_end (env : EnvP) (st : StateP) (w : List Char)
    (sc : Int × Int) (lift : Pt) (step : Int × Int) (lc : Int × Int)
    (hsc : st.startCell = some sc) (hlift : st.lastClient = some lift)
    (hcell : env.cellAt lift = some lc)
    (hstep : deriveStepP st.startPoint lift (env.cellAt lift) sc = some step)
    (hnf : w ∉ st.found) (hw : w ∈ (onUpP env st).found) :
    (0 ≤ sc.1 + step.1 * ((w.length : Int) - 1) ∧
      sc.1 + step.1 * ((w.length : Int) - 1) < 10 ∧
      0 ≤ sc.2 + step.2 * ((w.length : Int) - 1) ∧
      sc.2 + step.2 * ((w.length : Int) - 1) < 10) ∧
    max |lc.1 - (sc.1 + step.1 * ((w.length : Int) - 1))|
      |lc.2 - (sc.2 + step.2 * ((w.length : Int) - 1))| ≤ 1 := by
  rcases onUpP_found env st with hsame | ⟨sc', lift', step', w', hsc', hlift', hstep', hscan', hfound'⟩
  · rw [hsame] at hw
    exact absurd hw hnf
  · have hsceq : sc = sc' := Option.some.inj (hsc.symm.trans hsc')
    subst hsceq
    have hlifteq : lift = lift' := Option.some.inj (hlift.symm.trans hlift')
    subst hlifteq
    have hstepeq : step = step' := Option.some.inj (hstep.symm.trans hstep')
    subst hstepeq
    rw [hfound'] at hw
    rcases List.mem_cons.1 hw with rfl | hmem
    · have hprops := scanWordsP_some env st.found sc step (env.cellAt lift) env.words w hscan'
      refine ⟨hprops.1, ?_⟩
      have hlct := hprops.2
      rw [hcell] at hlct
      unfold liftCloseTo at hlct
      simpa using hlct
    · exact absurd hmem hnf

/-- Shared test fixture: a 10×10 grid of `'Q'` with `AB` eastward from
the origin. -/
def gridAB : Grid :=
  (List.replicate 10 (List.replicate 10 'Q')).set 0
    (((List.replicate 10 'Q').set 0 'A').set 1 'B')

/-- Shared test fixture: engine-P environment whose cell resolution
always reports cell (0,1). -/
def envP0 : EnvP :=
  { grid := gridAB, words := [['A', 'B']], cellAt := fun _ => some (0, 1) }

/-- Shared test fixture: a gesture started at cell (0,0), point (0,0),
lifted at (20,0). -/
def stP0 : StateP :=
  { startCell := some (0, 0), startPoint := some ⟨0, 0⟩, lastClient := some ⟨20, 0⟩,
    dirLock := none, found := [] }

/-- Witness for C8: the eastward lift at (20,0) resolves to cell (0,1),
the step is East, `AB` is matched, and indeed its implied end cell is in
bounds with the lift cell within Chebyshev distance 1. -/
theorem release_near_implied_end_witness :
    stP0.startCell = some ((0 : Int), (0 : Int)) ∧
      stP0.lastClient = some (⟨20, 0⟩ : Pt) ∧
      envP0.cellAt ⟨20, 0⟩ = some (0, 1) ∧
      deriveStepP stP0.startPoint ⟨20, 0⟩ (envP0.cellAt ⟨20, 0⟩) (0, 0) = some (0, 1) ∧
      ['A', 'B'] ∉ stP0.found ∧
      ['A', 'B'] ∈ (onUpP envP0 stP0).found ∧
      ((0 ≤ (0 : Int) + 0 * (((['A', 'B'] : List Char).length : Int) - 1) ∧
        (0 : Int) + 0 * (((['A', 'B'] : List Char).length : Int) - 1) < 10 ∧
        0 ≤ (0 : Int) + 1 * (((['A', 'B'] : List Char).length : Int) - 1) ∧
        (0 : Int) + 1 * (((['A', 'B'] : List Char).length : Int) - 1) < 10) ∧
      max |(0 : Int) - ((0 : Int) + 0 * (((['A', 'B'] : List Char).length : Int) - 1))|
        |(1 : Int) - ((0 : Int) + 1 * (((['A', 'B'] : List Char).length : Int) - 1))| ≤ 1) := by
  have hstep : deriveStepP stP0.startPoint ⟨20, 0⟩ (envP0.cellAt ⟨20, 0⟩) (0, 0) =
      some (0, 1) := by
    norm_num [deriveStepP, stP0, envP0, qsign]
  have hmem : ['A', 'B'] ∈ (onUpP envP0 stP0).found := by
    norm_num [onUpP, stP0, envP0, deriveStepP, scanWordsP, liftCloseTo, cellsFrom,
      getCell, clearedP, qsign, List.range_succ]
    all_goals decide
  exact ⟨rfl, rfl, rfl, hstep, by simp [stP0], hmem,
    release_near_implied_end envP0 stP0 ['A', 'B'] (0, 0) ⟨20, 0⟩ (0, 1) (0, 1)
      rfl rfl rfl hstep (by simp [stP0]) hmem⟩

/-! ### An unresolved lift cell skips the tolerance check (C10) -/

lemma scanWordsP_none_eq (env : EnvP) (found : List (List Char)) (sc step : Int × Int) :
    ∀ ws : List (List Char),
      scanWordsP env found sc step none ws = scanWordsPNoLift env found sc step ws := by
  intro ws
  induction ws with
  | nil => rfl
  | cons w rest ih =>
    unfold scanWordsP scanWordsPNoLift
    by_cases h1 : w ∈ found
    · rw [if_pos h1, if_pos h1, ih]
    rw [if_neg h1, if_neg h1]
    by_cases h2 : sc.1 + step.1 * ((w.length : Int) - 1) < 0 ∨
        10 ≤ sc.1 + step.1 * ((w.length : Int) - 1) ∨
        sc.2 + step.2 * ((w.length : Int) - 1) < 0 ∨
        10 ≤ sc.2 + step.2 * ((w.length : Int) - 1)
    · rw [if_pos h2, if_pos h2, ih]
    rw [if_neg h2, if_neg h2]
    rw [show (!liftCloseTo none
        (sc.1 + step.1 * ((w.length : Int) - 1), sc.2 + step.2 * ((w.length : Int) - 1)) 1)
      = false from rfl]
    rw [if_neg Bool.false_ne_true]
    by_cases h3 : ((cellsFrom sc step w.length).map fun p => getCell env.grid p.1 p.2) ≠ w ∧
        ((cellsFrom sc step w.length).reverse.map fun p => getCell env.grid p.1 p.2) ≠ w
    · rw [if_pos h3, if_pos h3, ih]
    · rw [if_neg h3, if_neg h3]

/-- **C10.** When the release point resolves to no grid cell
(`cellFromClient` returns `null`, e.g. the finger lifted outside the
grid), `onUp` behaves exactly like the variant without the
lift-proximity check: the tolerance is treated as satisfied and a word
can still be matched from the start cell, derived step and grid letters
alone. -/
theorem unresolved_lift_skips_tolerance (env : EnvP) (st : StateP) (lift : Pt)
    (hlift : st.lastClient = some lift) (hnone : env.cellAt lift = none) :
    onUpP env st = onUpPNoLift env st := by
  unfold onUpP onUpPNoLift
  rcases hsc : st.startCell with _ | sc
  · rfl
  rw [hlift]
  dsimp only
  rw [hnone]
  rcases hds : deriveStepP st.startPoint lift none sc with _ | step
  · rfl
  dsimp only
  by_cases hz : step = (0, 0)
  · rw [if_pos hz, if_pos hz]
  · rw [if_neg hz, if_neg hz, scanWordsP_none_eq]

/-- Shared test fixture: engine-P environment in which no screen point
resolves to a cell. -/
def envP1 : EnvP :=
  { grid := gridAB, words := [['A', 'B']], cellAt := fun _ => none }

/-- Witness for C10: with the lift point unresolved, `onUp` equals the
no-tolerance variant, and the word `AB` is still matched on release. -/
theorem unresolved_lift_skips_tolerance_witness :
    stP0.lastClient = some (⟨20, 0⟩ : Pt) ∧
      envP1.cellAt ⟨20, 0⟩ = none ∧
      onUpP envP1 stP0 = onUpPNoLift envP1 stP0 ∧
      ['A', 'B'] ∈ (onUpP envP1 stP0).found := by
  refine ⟨rfl, rfl, unresolved_lift_skips_tolerance envP1 stP0 ⟨20, 0⟩ rfl rfl, ?_⟩
  norm_num [onUpP, stP0, envP1, deriveStepP, scanWordsP, liftCloseTo, cellsFrom,
    getCell, clearedP, qsign, List.range_succ]
  all_goals decide
